import Mathlib

/-!
Verification of the schedule-generation core of the Ismis_Scheduler repository
(src/backend/ismis_scheduler.py), shallowly embedded in Lean 4.

Conventions of the embedding:
* Python strings are `String`/`List Char`; the parsing functions work on
  `List Char` and `parse_schedule` wraps them for `String` inputs.
* Python `None` (an unscheduled / unparseable schedule) is `Option.none`.
* Python ints are `Int` (`Nat` for regex digit groups, which are non-negative).
* The whitespace class of Python's `re` / `str.strip` is modelled for the
  six ASCII whitespace characters; the ASCII-only character classes
  `[MTWRFSUmtwrfsu]`, `[A-Za-z]` and `\d` are modelled with ASCII tests,
  matching the behaviour of the source on all ASCII input.
* Python dicts that the core receives (one record per section) are modelled
  by the structure `Section` holding exactly the fields the core reads.
-/

/-- AM/PM marker captured by the regex group `(AM|PM)` (case-insensitive).
The source only ever tests `marker.upper() == "PM"`, so the original casing
is irrelevant and the marker is represented canonically. -/
inductive AmPm where
  | am
  | pm
deriving DecidableEq

/-- The dict produced by `parse_schedule` in the source:
keys `days` (list of single-letter day codes), `start` and `end`
(minutes since midnight). -/
structure ParsedInterval where
  days : List Char
  start : Int
  «end» : Int
deriving DecidableEq

/-- One scraped section record, with exactly the fields the scheduling core
reads: `code` (`section.get("code", ...)`), `schedule` (`section["schedule"]`)
and the optional `enrolled` field read by `is_course_full` via
`course.get("enrolled", "0/0")`. -/
structure Section where
  code : String
  schedule : String
  enrolled : Option String
deriving DecidableEq

/-- Python's `\s`/`str.strip` whitespace on ASCII text. -/
def pyIsSpace (c : Char) : Bool :=
  c = ' ' || c = '\t' || c = '\n' || c = '\r' || c = '\x0b' || c = '\x0c'

/-- `str.strip()`: drop whitespace from both ends. -/
def pyStrip (cs : List Char) : List Char :=
  ((cs.dropWhile pyIsSpace).reverse.dropWhile pyIsSpace).reverse

/-- The seven raw capture groups of the time part of both schedule regexes:
`(\d{1,2}):(\d{2})\s*(AM|PM)?\s*-\s*(\d{1,2}):(\d{2})\s*(AM|PM)?`. -/
structure TimeMatch where
  startHour : Nat
  startMin : Nat
  startAmPm : Option AmPm
  endHour : Nat
  endMin : Nat
  endAmPm : Option AmPm
deriving DecidableEq

/-- A character of the day class `[MTWRFSUmtwrfsu]` (case-insensitive). -/
def isDayChar (c : Char) : Bool :=
  ['M', 'T', 'W', 'R', 'F', 'S', 'U'].contains c.toUpper

/-- Numeric value of an ASCII digit character. -/
def digitVal (c : Char) : Nat :=
  c.toNat - 48

/-- The two-digit-hour attempt of `(\d{1,2}):(\d{2})`: the greedy `\d{1,2}`
first tries to take two digits, which succeeds when they are followed by
`:` and two more digits. -/
def hm2 (cs : List Char) : Option (Nat × Nat × List Char) :=
  match cs with
  | a :: b :: c :: d :: e :: rest =>
    if a.isDigit ∧ b.isDigit ∧ c = ':' ∧ d.isDigit ∧ e.isDigit then
      some (digitVal a * 10 + digitVal b, digitVal d * 10 + digitVal e, rest)
    else none
  | _ => none

/-- The one-digit-hour fallback of `(\d{1,2}):(\d{2})`. -/
def hm1 (cs : List Char) : Option (Nat × Nat × List Char) :=
  match cs with
  | a :: b :: c :: d :: rest =>
    if a.isDigit ∧ b = ':' ∧ c.isDigit ∧ d.isDigit then
      some (digitVal a, digitVal c * 10 + digitVal d, rest)
    else none
  | _ => none

/-- `(\d{1,2}):(\d{2})` with the regex's greedy-then-backtrack order:
two digits of hour if possible, else one. -/
def parseHM (cs : List Char) : Option (Nat × Nat × List Char) :=
  match hm2 cs with
  | some r => some r
  | none => hm1 cs

/-- The optional group `(AM|PM)?` (case-insensitive): consume a marker when
the next two characters spell one, else match empty. -/
def parseAmPmOpt (cs : List Char) : Option AmPm × List Char :=
  match cs with
  | a :: m :: rest =>
    if a.toUpper = 'A' ∧ m.toUpper = 'M' then (some AmPm.am, rest)
    else if a.toUpper = 'P' ∧ m.toUpper = 'M' then (some AmPm.pm, rest)
    else (none, cs)
  | _ => (none, cs)

/-- The shared time grammar of both schedule regexes, starting right after
the mandatory whitespace that follows the day token:
`(\d{1,2}):(\d{2})\s*(AM|PM)?\s*-\s*(\d{1,2}):(\d{2})\s*(AM|PM)?`.
Trailing input after the final group is ignored (`re.match` does not anchor
the end). -/
def parseTimePart (cs : List Char) : Option TimeMatch :=
  match parseHM cs with
  | none => none
  | some (sh, sm, r1) =>
    let (sap, r3) := parseAmPmOpt (r1.dropWhile pyIsSpace)
    match r3.dropWhile pyIsSpace with
    | '-' :: r5 =>
      match parseHM (r5.dropWhile pyIsSpace) with
      | none => none
      | some (eh, em, r7) =>
        let (eap, _) := parseAmPmOpt (r7.dropWhile pyIsSpace)
        some ⟨sh, sm, sap, eh, em, eap⟩
    | _ => none

/-- First regex of `parse_schedule`:
`([MTWRFSUmtwrfsu]+h?)\s+<time grammar>` anchored at the start.
Returns the raw day group (day-letter run plus optional trailing `h`/`H`)
and the time groups. -/
def matchPattern1 (cs : List Char) : Option (List Char × TimeMatch) :=
  let dayRun := cs.takeWhile isDayChar
  let rest0 := cs.dropWhile isDayChar
  if dayRun = [] then none
  else
    let g1r :=
      match rest0 with
      | c :: r => if c = 'h' ∨ c = 'H' then (dayRun ++ [c], r) else (dayRun, rest0)
      | [] => (dayRun, ([] : List Char))
    match g1r.2 with
    | c :: r =>
      if pyIsSpace c then
        (parseTimePart (r.dropWhile pyIsSpace)).map (fun tm => (g1r.1, tm))
      else none
    | [] => none

/-- `days_str.replace("TH", "R")`: left-to-right non-overlapping replacement
of the two-character substring `TH` by `R`. -/
def pyReplaceTH : List Char → List Char
  | [] => []
  | [c] => [c]
  | a :: b :: rest =>
    if a = 'T' ∧ b = 'H' then 'R' :: pyReplaceTH rest
    else a :: pyReplaceTH (b :: rest)

/-- The source's `day_mapping` dict (full and 3-letter day names to
single-letter codes), in its insertion order, which is the iteration order
of the prefix search. -/
def day_mapping : List (List Char × Char) :=
  [("MONDAY".data, 'M'), ("MON".data, 'M'),
   ("TUESDAY".data, 'T'), ("TUE".data, 'T'),
   ("WEDNESDAY".data, 'W'), ("WED".data, 'W'),
   ("THURSDAY".data, 'R'), ("THU".data, 'R'), ("TH".data, 'R'),
   ("FRIDAY".data, 'F'), ("FRI".data, 'F'),
   ("SATURDAY".data, 'S'), ("SAT".data, 'S'),
   ("SUNDAY".data, 'U'), ("SUN".data, 'U')]

/-- The `days_input.startswith(day_name)` search over `day_mapping`
(first match wins). -/
def lookupDayName (input : List Char) : Option Char :=
  (day_mapping.find? (fun p => p.1.isPrefixOf input)).map Prod.snd

/-- Second regex of `parse_schedule`: `([A-Za-z]+)\s+<time grammar>`,
followed by mapping the upper-cased letter run through `day_mapping` by
prefix match. `none` when the regex fails or the day name is unknown. -/
def matchPattern2 (cs : List Char) : Option (Char × TimeMatch) :=
  let letters := cs.takeWhile Char.isAlpha
  let rest0 := cs.dropWhile Char.isAlpha
  if letters = [] then none
  else
    match rest0 with
    | c :: r =>
      if pyIsSpace c then
        match lookupDayName (letters.map Char.toUpper) with
        | some code =>
          (parseTimePart (r.dropWhile pyIsSpace)).map (fun tm => (code, tm))
        | none => none
      else none
    | [] => none

/-- The matching phase of `parse_schedule`: the `TBA`/empty test, `strip`,
then regex 1 (with `days_str.upper().replace("TH","R").replace("H","")`)
or regex 2. Returns the final day-code list plus the raw time groups. -/
def scheduleMatch (s : String) : Option (List Char × TimeMatch) :=
  if s.data = [] ∨ s.data.map Char.toUpper = "TBA".data then none
  else
    let cs := pyStrip s.data
    match matchPattern1 cs with
    | some (g1, tm) =>
      some ((pyReplaceTH (g1.map Char.toUpper)).filter (fun c => !(c = 'H')), tm)
    | none =>
      match matchPattern2 cs with
      | some (code, tm) => some ([code], tm)
      | none => none

/-- The 12-to-24-hour conversion block of `parse_schedule`: an explicit `PM`
marker with hour below 12 adds 12 to that boundary; when — and only when —
the second `if` fell through with both markers absent, hours 1 to 7 of each
boundary are bumped by 12 independently (bare-hour PM heuristic). -/
def convertHours (tm : TimeMatch) : Nat × Nat :=
  let sh :=
    if tm.startAmPm = some AmPm.pm ∧ tm.startHour < 12 then tm.startHour + 12
    else tm.startHour
  if tm.endAmPm = some AmPm.pm ∧ tm.endHour < 12 then (sh, tm.endHour + 12)
  else if tm.startAmPm = none ∧ tm.endAmPm = none then
    (if tm.startHour < 8 ∧ 1 ≤ tm.startHour then tm.startHour + 12 else tm.startHour,
     if tm.endHour < 8 ∧ 1 ≤ tm.endHour then tm.endHour + 12 else tm.endHour)
  else (sh, tm.endHour)

/-- Assembling the result dict of `parse_schedule`:
minutes = hour * 60 + minute after 12-to-24-hour conversion. -/
def mkParsed (days : List Char) (tm : TimeMatch) : ParsedInterval :=
  ⟨days, ((convertHours tm).1 * 60 + tm.startMin : Nat),
         ((convertHours tm).2 * 60 + tm.endMin : Nat)⟩

/-- `parse_schedule(schedule_str)` from the source. -/
def parse_schedule (s : String) : Option ParsedInterval :=
  (scheduleMatch s).map (fun p => mkParsed p.1 p.2)

/-- `schedules_conflict(sched1, sched2)` from the source: two parsed
schedules conflict when both are present, they share a day, all four
boundary minutes pass the defensive `0 <= t <= 1440` check, and the
half-open intervals overlap (`start1 < end2 and start2 < end1`). -/
def schedules_conflict (sched1 sched2 : Option ParsedInterval) : Bool :=
  match sched1, sched2 with
  | none, _ => false
  | _, none => false
  | some s1, some s2 =>
    -- days1/days2 empty => no conflict
    if s1.days.isEmpty || s2.days.isEmpty then false
    -- shared_days = days1 & days2; empty => no conflict
    else if !(s1.days.any (fun d => s2.days.contains d)) then false
    -- defensive bound check on all four boundary values
    else if !([s1.start, s1.«end», s2.start, s2.«end»].all
                (fun t => decide (0 ≤ t) && decide (t ≤ 1440))) then false
    -- half-open overlap test
    else if s1.start < s2.«end» ∧ s2.start < s1.«end» then true
    else false

/-- Conflict test between two raw section records, as performed inline by
`has_schedule_conflict` and by the pruning loop of `backtrack`:
parse both schedule strings, then `schedules_conflict`. -/
def sectionsConflict (a b : Section) : Bool :=
  schedules_conflict (parse_schedule a.schedule) (parse_schedule b.schedule)

/-- `has_schedule_conflict(schedule)` from the source: the double loop over
index pairs `i < j` testing `schedules_conflict` on the parsed schedules,
written as the equivalent structural recursion (head against every later
element, then the tail pairs). -/
def has_schedule_conflict : List Section → Bool
  | [] => false
  | s :: rest => rest.any (fun t => sectionsConflict s t) || has_schedule_conflict rest

mutual

/-- The inner `backtrack(index, current_schedule)` closure of
`generate_schedule_combinations`, with its shared mutable state made
explicit: `remaining` is the list of per-course section lists from `index`
on, `current` is `current_schedule`, and `acc` is `valid_schedules`.
Entry short-circuits once the accumulated count reaches `max_combinations`;
at the base the fully assembled path is re-validated pairwise before being
appended. -/
def backtrack (max_combinations : Int) (remaining : List (List Section))
    (current : List Section) (acc : List (List Section)) : List (List Section) :=
  if (acc.length : Int) ≥ max_combinations then acc
  else
    match remaining with
    | [] => if has_schedule_conflict current then acc else acc ++ [current]
    | sections :: rest => tryEach max_combinations sections rest current acc
termination_by (remaining.length, 0)

/-- The `for section in sections` loop body of `backtrack`: parse the
candidate, test it against every already-committed section of the current
path, and recurse when compatible. -/
def tryEach (max_combinations : Int) (secs : List Section)
    (rest : List (List Section)) (current : List Section)
    (acc : List (List Section)) : List (List Section) :=
  match secs with
  | [] => acc
  | sec :: more =>
    if current.any (fun sc =>
        schedules_conflict (parse_schedule sec.schedule)
          (parse_schedule sc.schedule)) then
      tryEach max_combinations more rest current acc
    else
      tryEach max_combinations more rest current
        (backtrack max_combinations rest (current ++ [sec]) acc)
termination_by (rest.length, secs.length)

end

/-- `generate_schedule_combinations(courses_by_code, max_combinations)` from
the source. The dict is modelled as an association list in its key
(insertion) order; `courses_by_code[course_codes[index]]` is the positional
section list since dict keys are unique. -/
def generate_schedule_combinations
    (courses_by_code : List (String × List Section)) (max_combinations : Int) :
    List (List Section) :=
  backtrack max_combinations (courses_by_code.map Prod.snd) [] []

/-- Reference enumeration (from the spec's notion of combination): all ways
of picking one section per course, course after course, in input order. -/
def selections : List (List Section) → List (List Section)
  | [] => [[]]
  | secs :: rest => secs.flatMap (fun s => (selections rest).map (fun sel => s :: sel))

/-- Reference list (from the spec): the complete extensions of `path` by one
section per remaining course whose full assembled list is pairwise
conflict-free. -/
def validExts (path : List Section) (remaining : List (List Section)) :
    List (List Section) :=
  ((selections remaining).filter
    (fun sel => !has_schedule_conflict (path ++ sel))).map (fun sel => path ++ sel)

/-- Reference list (from the spec): all pairwise conflict-free selections of
one section per course — the uncapped valid combinations. -/
def allValidSelections (courses_by_code : List (String × List Section)) :
    List (List Section) :=
  (selections (courses_by_code.map Prod.snd)).filter
    (fun sel => !has_schedule_conflict sel)

/-- Python `str.split(sep)` for a single-character separator (keeps empty
parts). -/
def pySplit (sep : Char) : List Char → List (List Char)
  | [] => [[]]
  | c :: rest =>
    if c = sep then [] :: pySplit sep rest
    else
      match pySplit sep rest with
      | g :: gs => (c :: g) :: gs
      | [] => [[c]]

/-- Python `int(string)` on already-stripped ASCII text: an optional sign
followed by one or more decimal digits, else a `ValueError` (`none`). -/
def pyInt (cs : List Char) : Option Int :=
  match cs with
  | '+' :: rest =>
    if rest ≠ [] ∧ rest.all Char.isDigit then
      some (rest.foldl (fun a c => a * 10 + digitVal c) 0 : Nat)
    else none
  | '-' :: rest =>
    if rest ≠ [] ∧ rest.all Char.isDigit then
      some (-((rest.foldl (fun a c => a * 10 + digitVal c) 0 : Nat) : Int))
    else none
  | _ =>
    if cs ≠ [] ∧ cs.all Char.isDigit then
      some (cs.foldl (fun a c => a * 10 + digitVal c) 0 : Nat)
    else none

/-- `is_course_full(course)` from the source: read `enrolled` with default
`"0/0"`; if it contains a slash, split on it, parse the first two stripped
parts as ints and compare; any failure falls through to `False`. -/
def is_course_full (course : Section) : Bool :=
  let enrolled_str := (course.enrolled.getD "0/0").data
  if enrolled_str.contains '/' then
    match pyInt (pyStrip ((pySplit '/' enrolled_str).getD 0 [])),
          pyInt (pyStrip ((pySplit '/' enrolled_str).getD 1 [])) with
    | some enrolled, some capacity => decide (enrolled ≥ capacity)
    | _, _ => false
  else false

/-- Reference parse (from the spec's contract wording): the enrolled/capacity
pair a record's enrollment field denotes, when the first two
slash-separated parts are integers. -/
def enrolledCounts (s : String) : Option (Int × Int) :=
  if s.data.contains '/' then
    match pyInt (pyStrip ((pySplit '/' s.data).getD 0 [])),
          pyInt (pyStrip ((pySplit '/' s.data).getD 1 [])) with
    | some e, some c => some (e, c)
    | _, _ => none
  else none

/-- Spec-side constructor: one ASCII digit. -/
def digitChar (n : Nat) : Char :=
  if n = 0 then '0' else if n = 1 then '1' else if n = 2 then '2'
  else if n = 3 then '3' else if n = 4 then '4' else if n = 5 then '5'
  else if n = 6 then '6' else if n = 7 then '7' else if n = 8 then '8'
  else '9'

/-- Spec-side constructor: two-digit zero-padded number below 100. -/
def pad2 (n : Nat) : List Char :=
  [digitChar (n / 10), digitChar (n % 10)]

/-- Spec-side constructor: a 12-hour-clock hour (1 to 12) without leading
zero. -/
def fmtHour12 (h : Nat) : List Char :=
  if 10 ≤ h then pad2 h else [digitChar h]

/-- Spec-side constructor: 12-hour-clock hour of a 24-hour hour. -/
def hour12 (h24 : Nat) : Nat :=
  if h24 % 12 = 0 then 12 else h24 % 12

/-- Spec-side constructor: a minutes-since-midnight value rendered as
`H:MM AM` / `H:MM PM` (explicit marker on the boundary). -/
def fmt12 (m : Nat) : List Char :=
  fmtHour12 (hour12 (m / 60)) ++ ':' :: pad2 (m % 60) ++
    [' ', if m / 60 < 12 then 'A' else 'P', 'M']

/-- Spec-side constructor for the round-trip property: the valid schedule
string `"<days> <start> - <end>"` with explicit AM/PM markers on both
boundaries. -/
def constructSched (days : List Char) (startMin endMin : Nat) : String :=
  ⟨days ++ ' ' :: (fmt12 startMin ++ ' ' :: '-' :: ' ' :: fmt12 endMin)⟩

/-- Characterization of `schedules_conflict`: it returns `true` exactly when
both schedules are present, a day is shared, all four boundaries lie in
`[0, 1440]`, and the half-open intervals overlap. -/
theorem schedules_conflict_iff (a b : Option ParsedInterval) :
    schedules_conflict a b = true ↔
      ∃ s1 s2, a = some s1 ∧ b = some s2 ∧
        (∃ d, d ∈ s1.days ∧ d ∈ s2.days) ∧
        (0 ≤ s1.start ∧ s1.start ≤ 1440 ∧ 0 ≤ s1.«end» ∧ s1.«end» ≤ 1440 ∧
         0 ≤ s2.start ∧ s2.start ≤ 1440 ∧ 0 ≤ s2.«end» ∧ s2.«end» ≤ 1440) ∧
        s1.start < s2.«end» ∧ s2.start < s1.«end» := by
  match a, b with
  | none, _ =>
    simp [schedules_conflict]
  | some s1, none =>
    simp [schedules_conflict]
  | some s1, some s2 =>
    constructor
    · intro h
      refine ⟨s1, s2, rfl, rfl, ?_⟩
      simp only [schedules_conflict] at h
      split_ifs at h with hdays hshare hbound hover
      refine ⟨?_, ?_, hover⟩
      · have hshare2 : s1.days.any (fun d => s2.days.contains d) = true := by
          cases hany : s1.days.any (fun d => s2.days.contains d) with
          | false => rw [hany] at hshare; exact absurd rfl hshare
          | true => rfl
        obtain ⟨d, hd, hcont⟩ := List.any_eq_true.mp hshare2
        exact ⟨d, hd, List.elem_iff.mp hcont⟩
      · have hbound2 : ([s1.start, s1.«end», s2.start, s2.«end»].all
            (fun t => decide (0 ≤ t) && decide (t ≤ 1440))) = true := by
          cases hall : ([s1.start, s1.«end», s2.start, s2.«end»].all
              (fun t => decide (0 ≤ t) && decide (t ≤ 1440))) with
          | false => rw [hall] at hbound; exact absurd rfl hbound
          | true => rfl
        simp only [List.all_cons, List.all_nil, Bool.and_true, Bool.and_eq_true,
          decide_eq_true_eq] at hbound2
        tauto
    · rintro ⟨t1, t2, h1, h2, ⟨d, hd1, hd2⟩, hbound, hover⟩
      obtain rfl : s1 = t1 := by injection h1
      obtain rfl : s2 = t2 := by injection h2
      simp only [schedules_conflict]
      have hne1 : s1.days.isEmpty = false := by
        cases hdays : s1.days with
        | nil => rw [hdays] at hd1; cases hd1
        | cons x xs => rfl
      have hne2 : s2.days.isEmpty = false := by
        cases hdays : s2.days with
        | nil => rw [hdays] at hd2; cases hd2
        | cons x xs => rfl
      rw [hne1, hne2]
      have hshare : s1.days.any (fun d => s2.days.contains d) = true := by
        rw [List.any_eq_true]
        exact ⟨d, hd1, List.elem_iff.mpr hd2⟩
      rw [hshare]
      have hb : ([s1.start, s1.«end», s2.start, s2.«end»].all
          (fun t => decide (0 ≤ t) && decide (t ≤ 1440))) = true := by
        simp only [List.all_cons, List.all_nil, Bool.and_true, Bool.and_eq_true,
          decide_eq_true_eq]
        tauto
      rw [hb]
      simp [hover]

/-- `schedules_conflict` is symmetric. -/
theorem schedules_conflict_symm (a b : Option ParsedInterval) :
    schedules_conflict a b = schedules_conflict b a := by
  cases hab : schedules_conflict a b with
  | true =>
    obtain ⟨s1, s2, h1, h2, ⟨d, hd1, hd2⟩, hb, ho1, ho2⟩ :=
      (schedules_conflict_iff a b).mp hab
    exact ((schedules_conflict_iff b a).mpr
      ⟨s2, s1, h2, h1, ⟨d, hd2, hd1⟩, by tauto, ho2, ho1⟩).symm
  | false =>
    cases hba : schedules_conflict b a with
    | false => rfl
    | true =>
      obtain ⟨s2, s1, h2, h1, ⟨d, hd2, hd1⟩, hb, ho2, ho1⟩ :=
        (schedules_conflict_iff b a).mp hba
      rw [(schedules_conflict_iff a b).mpr
        ⟨s1, s2, h1, h2, ⟨d, hd1, hd2⟩, by tauto, ho1, ho2⟩] at hab
      cases hab

/-- Distributing the pairwise conflict test over an append. -/
theorem has_schedule_conflict_append (l1 l2 : List Section) :
    has_schedule_conflict (l1 ++ l2) =
      (has_schedule_conflict l1 || has_schedule_conflict l2 ||
        l1.any (fun a => l2.any (fun b => sectionsConflict a b))) := by
  induction l1 with
  | nil => simp [has_schedule_conflict]
  | cons a l1 ih =>
    simp only [List.cons_append, has_schedule_conflict, List.any_append, ih,
      List.any_cons]
    cases ha1 : l1.any (fun t => sectionsConflict a t) <;>
      cases ha2 : l2.any (fun t => sectionsConflict a t) <;>
      cases hc1 : has_schedule_conflict l1 <;>
      cases hc2 : has_schedule_conflict l2 <;>
      cases hx : l1.any (fun a => l2.any (fun b => sectionsConflict a b)) <;>
      simp [ha1, ha2, hc1, hc2, hx, ih]

/-- The pruning loop's conflict direction agrees with the pair order used by
`has_schedule_conflict`, by symmetry of `schedules_conflict`. -/
theorem any_sectionsConflict_symm (l : List Section) (s : Section) :
    l.any (fun p => sectionsConflict p s) = l.any (fun p => sectionsConflict s p) := by
  induction l with
  | nil => rfl
  | cons a l ih =>
    simp only [List.any_cons, ih, sectionsConflict, schedules_conflict_symm]

/-- Appending one candidate to the current path: the whole path is
conflict-free exactly when the path was and the candidate clashes with none
of its members. -/
theorem has_schedule_conflict_concat (path : List Section) (s : Section) :
    has_schedule_conflict (path ++ [s]) =
      (has_schedule_conflict path || path.any (fun p => sectionsConflict p s)) := by
  rw [has_schedule_conflict_append]
  simp [has_schedule_conflict]

/-- `validExts` at the end of the course list. -/
theorem validExts_nil (path : List Section) (h : has_schedule_conflict path = false) :
    validExts path [] = [path] := by
  simp [validExts, selections, h]

/-- One backtracking level of the reference enumeration. -/
theorem validExts_cons (path : List Section) (secs : List Section)
    (rest : List (List Section)) :
    validExts path (secs :: rest) =
      secs.flatMap (fun s => validExts (path ++ [s]) rest) := by
  induction secs with
  | nil => simp [validExts, selections]
  | cons s more ih =>
    have hfun : (fun sel => path ++ s :: sel) = (fun sel => (path ++ [s]) ++ sel) := by
      funext sel
      rw [List.append_cons]
    have hpred : (fun sel => !has_schedule_conflict (path ++ s :: sel)) =
        (fun sel => !has_schedule_conflict ((path ++ [s]) ++ sel)) := by
      funext sel
      rw [List.append_cons]
    have hsplit :
        validExts path ((s :: more) :: rest) =
          validExts (path ++ [s]) rest ++ validExts path (more :: rest) := by
      simp only [validExts, selections, List.flatMap_cons, List.filter_append,
        List.map_append, List.filter_map, List.map_map]
      congr 1
      simp only [Function.comp_def, hfun, hpred]
    rw [hsplit, ih, List.flatMap_cons]

/-- A candidate clashing with the current path contributes no valid complete
extension: every selection through it fails the final pairwise check. -/
theorem validExts_of_conflict (path : List Section) (s : Section)
    (rest : List (List Section))
    (h : path.any (fun p => sectionsConflict s p) = true) :
    validExts (path ++ [s]) rest = [] := by
  have hall : ∀ sel ∈ selections rest,
      ¬(!has_schedule_conflict ((path ++ [s]) ++ sel)) = true := by
    intro sel _
    have hps : has_schedule_conflict (path ++ [s]) = true := by
      rw [has_schedule_conflict_concat, any_sectionsConflict_symm, h]
      simp
    rw [has_schedule_conflict_append, hps]
    simp
  unfold validExts
  rw [List.filter_eq_nil_iff.mpr hall]
  rfl

/-- Characterization of `backtrack`: starting from a conflict-free partial
path and an accumulator, the search appends the valid complete extensions
of the path in enumeration order, truncated so that the accumulated total
never exceeds the cap. -/
theorem backtrack_spec (k : Int) :
    ∀ (remaining : List (List Section)) (path : List Section)
      (acc : List (List Section)),
      has_schedule_conflict path = false →
      backtrack k remaining path acc =
        acc ++ (validExts path remaining).take (k - acc.length).toNat := by
  intro remaining
  induction remaining with
  | nil =>
    intro path acc hpath
    rw [backtrack.eq_def]
    by_cases hcap : (acc.length : Int) ≥ k
    · rw [if_pos hcap, Int.toNat_eq_zero.mpr (by omega)]
      simp
    · rw [if_neg hcap]
      show (if has_schedule_conflict path then acc else acc ++ [path]) =
        acc ++ (validExts path []).take (k - acc.length).toNat
      rw [hpath, validExts_nil path hpath]
      obtain ⟨m, hm⟩ : ∃ m, (k - (acc.length : Int)).toNat = m + 1 :=
        ⟨(k - (acc.length : Int)).toNat - 1, by omega⟩
      rw [hm]
      simp
  | cons secs rest IH =>
    intro path acc hpath
    rw [backtrack.eq_def]
    by_cases hcap : (acc.length : Int) ≥ k
    · rw [if_pos hcap, Int.toNat_eq_zero.mpr (by omega)]
      simp
    · rw [if_neg hcap]
      show tryEach k secs rest path acc =
        acc ++ (validExts path (secs :: rest)).take (k - acc.length).toNat
      rw [validExts_cons]
      clear hcap
      induction secs generalizing acc with
      | nil => simp [tryEach]
      | cons s more IH2 =>
        rw [tryEach.eq_def]
        show (if path.any (fun sc => schedules_conflict (parse_schedule s.schedule)
                (parse_schedule sc.schedule)) then
              tryEach k more rest path acc
            else tryEach k more rest path (backtrack k rest (path ++ [s]) acc)) = _
        cases hconf : path.any (fun sc => schedules_conflict (parse_schedule s.schedule)
            (parse_schedule sc.schedule)) with
        | true =>
          have hconf2 : path.any (fun p => sectionsConflict s p) = true := hconf
          rw [if_pos (by exact rfl), IH2, List.flatMap_cons,
            validExts_of_conflict path s rest hconf2]
          simp
        | false =>
          have hconf2 : path.any (fun p => sectionsConflict s p) = false := hconf
          have hpath2 : has_schedule_conflict (path ++ [s]) = false := by
            rw [has_schedule_conflict_concat, any_sectionsConflict_symm, hpath, hconf2]
            rfl
          rw [if_neg (by exact Bool.false_ne_true),
            IH (path ++ [s]) acc hpath2, IH2, List.flatMap_cons,
            List.take_append_eq_append_take]
          rw [List.append_assoc]
          congr 2
          simp only [List.length_append, List.length_take]
          congr 1
          omega

/-- The generator in closed form: the uncapped valid combinations in
enumeration order, truncated to the cap. -/
theorem generate_spec (g : List (String × List Section)) (k : Int) :
    generate_schedule_combinations g k = (allValidSelections g).take k.toNat := by
  rw [generate_schedule_combinations, backtrack_spec k _ [] [] rfl]
  simp [validExts, allValidSelections]

/-- Membership in the reference enumeration means picking one section per
course, in course order, each from its own list. -/
theorem mem_selections (L : List (List Section)) (sel : List Section)
    (h : sel ∈ selections L) : List.Forall₂ (fun secs s => s ∈ secs) L sel := by
  induction L generalizing sel with
  | nil =>
    rw [selections, List.mem_singleton] at h
    subst h
    exact List.Forall₂.nil
  | cons secs rest ih =>
    rw [selections, List.mem_flatMap] at h
    obtain ⟨s, hs, hsel⟩ := h
    rw [List.mem_map] at hsel
    obtain ⟨sel2, hsel2, rfl⟩ := hsel
    exact List.Forall₂.cons hs (ih sel2 hsel2)

/-- C1: for every course-group mapping and cap `k >= 1`, if the uncapped
number of pairwise non-conflicting one-section-per-course selections is
`n <= k`, `generate_schedule_combinations` returns exactly `n`
combinations, each pairwise non-conflicting. -/
theorem c1_completeness_under_cap (g : List (String × List Section)) (k : Int)
    (hk : 1 ≤ k) (hn : ((allValidSelections g).length : Int) ≤ k) :
    (generate_schedule_combinations g k).length = (allValidSelections g).length ∧
    ∀ c ∈ generate_schedule_combinations g k, has_schedule_conflict c = false := by
  have hfull : generate_schedule_combinations g k = allValidSelections g := by
    rw [generate_spec]
    exact List.take_of_length_le (by omega)
  constructor
  · rw [hfull]
  · intro c hc
    rw [hfull, allValidSelections, List.mem_filter] at hc
    have := hc.2
    simp only [Bool.not_eq_true'] at this
    exact this

theorem c1_witness :
    (1 : Int) ≤ 5 ∧
    ((allValidSelections
        [("X", [⟨"X1", "M 09:00 AM - 10:00 AM", none⟩,
                ⟨"X2", "M 10:00 AM - 11:00 AM", none⟩]),
         ("Y", [⟨"Y1", "M 10:00 AM - 10:30 AM", none⟩])]).length : Int) ≤ 5 ∧
    (generate_schedule_combinations
        [("X", [⟨"X1", "M 09:00 AM - 10:00 AM", none⟩,
                ⟨"X2", "M 10:00 AM - 11:00 AM", none⟩]),
         ("Y", [⟨"Y1", "M 10:00 AM - 10:30 AM", none⟩])] 5).length =
      (allValidSelections
        [("X", [⟨"X1", "M 09:00 AM - 10:00 AM", none⟩,
                ⟨"X2", "M 10:00 AM - 11:00 AM", none⟩]),
         ("Y", [⟨"Y1", "M 10:00 AM - 10:30 AM", none⟩])]).length :=
  ⟨by decide, by decide,
    (c1_completeness_under_cap _ 5 (by decide) (by decide)).1⟩

/-- C2: every returned combination picks exactly one section per course, in
the mapping's key order, the section at position `i` coming from the `i`-th
course's list, and is pairwise conflict-free. -/
theorem c2_combination_shape (g : List (String × List Section)) (k : Int) :
    ∀ c ∈ generate_schedule_combinations g k,
      List.Forall₂ (fun entry s => s ∈ entry.2) g c ∧
      has_schedule_conflict c = false := by
  intro c hc
  rw [generate_spec] at hc
  have hc2 := List.take_subset _ _ hc
  rw [allValidSelections, List.mem_filter] at hc2
  refine ⟨?_, by have := hc2.2; simp only [Bool.not_eq_true'] at this; exact this⟩
  exact List.forall₂_map_left_iff.mp (mem_selections _ _ hc2.1)

theorem c2_witness :
    List.Forall₂ (fun (entry : String × List Section) s => s ∈ entry.2)
      [("X", [⟨"X1", "MWF 10:00 - 11:30", none⟩])]
      [⟨"X1", "MWF 10:00 - 11:30", none⟩] ∧
    has_schedule_conflict [⟨"X1", "MWF 10:00 - 11:30", none⟩] = false :=
  c2_combination_shape [("X", [⟨"X1", "MWF 10:00 - 11:30", none⟩])] 7
    [⟨"X1", "MWF 10:00 - 11:30", none⟩]
    (by rw [generate_spec]; decide)

/-- C3: for every mapping and cap `k >= 1`, at most `k` combinations are
returned. -/
theorem c3_cap_respected (g : List (String × List Section)) (k : Int)
    (hk : 1 ≤ k) : ((generate_schedule_combinations g k).length : Int) ≤ k := by
  rw [generate_spec]
  have h := List.length_take_le k.toNat (allValidSelections g)
  omega

theorem c3_witness :
    ((generate_schedule_combinations
        [("X", [⟨"X1", "MWF 10:00 - 11:30", none⟩,
                ⟨"X2", "TTh 10:00 - 11:30", none⟩])] 1).length : Int) ≤ 1 :=
  c3_cap_respected _ 1 (by decide)

/-- C4 counterexample: on the empty mapping the generator returns the
one-element list holding the empty combination, not the empty list the
claim asserts. -/
theorem c4_counterexample :
    generate_schedule_combinations [] 5 = [[]] ∧
    ([[]] : List (List Section)) ≠ [] := by
  constructor
  · rw [generate_spec]
    decide
  · decide

/-- C4 amended: for every cap `k >= 1`, the empty mapping yields exactly the
single empty combination (the empty product), while a mapping holding a
course with an empty section list yields no combination. -/
theorem c4_amended_degenerate (k : Int) (hk : 1 ≤ k) (code : String) :
    generate_schedule_combinations [] k = [[]] ∧
    generate_schedule_combinations [(code, [])] k = [] := by
  constructor
  · rw [generate_spec]
    obtain ⟨m, hm⟩ : ∃ m, k.toNat = m + 1 := ⟨k.toNat - 1, by omega⟩
    rw [hm]
    show ([[]] : List (List Section)).take (m + 1) = [[]]
    simp
  · rw [generate_spec]
    show (List.take k.toNat
      ((selections [[]]).filter (fun sel => !has_schedule_conflict sel))) = []
    simp [selections]

theorem c4_witness :
    generate_schedule_combinations [] 3 = [[]] ∧
    generate_schedule_combinations [("X", [])] 3 = [] :=
  c4_amended_degenerate 3 (by decide) "X"

/-- C10: a non-positive cap makes the entry short-circuit fire before
anything is recorded, so the generator returns the empty list. -/
theorem c10_nonpositive_cap (g : List (String × List Section)) (k : Int)
    (hk : k ≤ 0) : generate_schedule_combinations g k = [] := by
  rw [generate_spec, Int.toNat_eq_zero.mpr (by omega)]
  exact List.take_zero _

theorem c10_witness :
    generate_schedule_combinations
      [("X", [⟨"X1", "MWF 10:00 - 11:30", none⟩])] 0 = [] :=
  c10_nonpositive_cap _ 0 (by decide)

/-- C5: `schedules_conflict` returns `true` exactly when both schedules are
present, all four boundaries lie in `[0, 1440]`, the day sets intersect,
and the half-open intervals overlap; in particular an absent schedule never
conflicts, back-to-back intervals do not conflict, and any out-of-range
boundary forces `false`. -/
theorem c5_conflict_characterization :
    (∀ a b, schedules_conflict a b = true ↔
      ∃ s1 s2, a = some s1 ∧ b = some s2 ∧
        (0 ≤ s1.start ∧ s1.start ≤ 1440 ∧ 0 ≤ s1.«end» ∧ s1.«end» ≤ 1440 ∧
         0 ≤ s2.start ∧ s2.start ≤ 1440 ∧ 0 ≤ s2.«end» ∧ s2.«end» ≤ 1440) ∧
        (∃ d, d ∈ s1.days ∧ d ∈ s2.days) ∧
        s1.start < s2.«end» ∧ s2.start < s1.«end») ∧
    (∀ x, schedules_conflict none x = false) ∧
    (∀ s1 s2 : ParsedInterval, s1.«end» = s2.start →
      schedules_conflict (some s1) (some s2) = false) ∧
    (∀ s1 s2 : ParsedInterval,
      (s1.start < 0 ∨ 1440 < s1.start ∨ s1.«end» < 0 ∨ 1440 < s1.«end» ∨
       s2.start < 0 ∨ 1440 < s2.start ∨ s2.«end» < 0 ∨ 1440 < s2.«end») →
      schedules_conflict (some s1) (some s2) = false) := by
  refine ⟨?_, ?_, ?_, ?_⟩
  · intro a b
    rw [schedules_conflict_iff]
    constructor
    · rintro ⟨s1, s2, h1, h2, hd, hb, ho⟩
      exact ⟨s1, s2, h1, h2, hb, hd, ho⟩
    · rintro ⟨s1, s2, h1, h2, hb, hd, ho⟩
      exact ⟨s1, s2, h1, h2, hd, hb, ho⟩
  · intro x
    cases x <;> rfl
  · intro s1 s2 he
    cases hc : schedules_conflict (some s1) (some s2) with
    | false => rfl
    | true =>
      obtain ⟨t1, t2, h1, h2, _, _, _, hov⟩ := (schedules_conflict_iff _ _).mp hc
      obtain rfl : s1 = t1 := by injection h1
      obtain rfl : s2 = t2 := by injection h2
      omega
  · intro s1 s2 hout
    cases hc : schedules_conflict (some s1) (some s2) with
    | false => rfl
    | true =>
      obtain ⟨t1, t2, h1, h2, _, hb, _⟩ := (schedules_conflict_iff _ _).mp hc
      obtain rfl : s1 = t1 := by injection h1
      obtain rfl : s2 = t2 := by injection h2
      omega

theorem c5_witness :
    schedules_conflict (some ⟨['M'], 540, 600⟩) (some ⟨['M'], 600, 660⟩) = false ∧
    schedules_conflict (some ⟨['M'], -5, 600⟩) (some ⟨['M'], 550, 700⟩) = false :=
  ⟨c5_conflict_characterization.2.2.1 ⟨['M'], 540, 600⟩ ⟨['M'], 600, 660⟩ rfl,
   c5_conflict_characterization.2.2.2 ⟨['M'], -5, 600⟩ ⟨['M'], 550, 700⟩
     (Or.inl (by decide))⟩

/-- C9 counterexample: a record with an absent `enrolled` field is reported
full — the default `"0/0"` parses as enrolled 0, capacity 0, and 0 >= 0 —
while the claim requires `false` on an absent field. -/
theorem c9_counterexample : is_course_full ⟨"X", "TBA", none⟩ = true := by
  decide

/-- C9 amended: `is_course_full` returns `true` exactly when the enrolled
field — with the absent field defaulting to `"0/0"`, hence reported full —
contains a slash and its first two slash-separated parts (stripped) parse
as integers with enrolled at least capacity; a missing slash or non-numeric
part yields `false`. -/
theorem c9_amended_characterization (sec : Section) :
    is_course_full sec = true ↔
      ∃ e c : Int,
        enrolledCounts (sec.enrolled.getD "0/0") = some (e, c) ∧ c ≤ e := by
  rw [is_course_full, enrolledCounts]
  cases hsl : ((sec.enrolled.getD "0/0").data).contains '/' with
  | false => simp [hsl]
  | true =>
    simp only [hsl, if_true]
    cases h1 : pyInt (pyStrip ((pySplit '/' (sec.enrolled.getD "0/0").data).getD 0 [])) with
    | none => simp
    | some e =>
      cases h2 : pyInt (pyStrip ((pySplit '/' (sec.enrolled.getD "0/0").data).getD 1 [])) with
      | none => simp
      | some c =>
        simp only [decide_eq_true_eq, Option.some_inj, ge_iff_le]
        constructor
        · intro hce
          exact ⟨e, c, rfl, hce⟩
        · rintro ⟨e2, c2, heq, hle⟩
          obtain ⟨he, hc⟩ := Prod.mk.injEq e c e2 c2 ▸ heq
          omega

theorem c9_witness :
    is_course_full ⟨"X", "TBA", some "30/30"⟩ = true ↔
      ∃ e c : Int,
        enrolledCounts ((some "30/30" : Option String).getD "0/0") = some (e, c) ∧
          c ≤ e :=
  c9_amended_characterization ⟨"X", "TBA", some "30/30"⟩

/-- With both markers absent, the conversion applies the bare-hour PM
heuristic to each boundary independently. -/
theorem convertHours_no_marker (tm : TimeMatch) (h1 : tm.startAmPm = none)
    (h2 : tm.endAmPm = none) :
    convertHours tm =
      (if 1 ≤ tm.startHour ∧ tm.startHour ≤ 7 then tm.startHour + 12
        else tm.startHour,
       if 1 ≤ tm.endHour ∧ tm.endHour ≤ 7 then tm.endHour + 12
        else tm.endHour) := by
  have e1 : ∀ h : Nat, (if h < 8 ∧ 1 ≤ h then h + 12 else h) =
      (if 1 ≤ h ∧ h ≤ 7 then h + 12 else h) := by
    intro h
    split_ifs <;> omega
  rw [convertHours]
  simp only [h1, h2]
  simp [e1]

/-- With at least one marker present, the heuristic is skipped and each
boundary gets only the explicit-PM 12-hour conversion. -/
theorem convertHours_marker (tm : TimeMatch)
    (h : tm.startAmPm ≠ none ∨ tm.endAmPm ≠ none) :
    convertHours tm =
      (if tm.startAmPm = some AmPm.pm ∧ tm.startHour < 12 then tm.startHour + 12
        else tm.startHour,
       if tm.endAmPm = some AmPm.pm ∧ tm.endHour < 12 then tm.endHour + 12
        else tm.endHour) := by
  rw [convertHours]
  cases hs : tm.startAmPm with
  | none =>
    cases he : tm.endAmPm with
    | none =>
      exfalso
      rcases h with h | h
      · exact h hs
      · exact h he
    | some ea =>
      split_ifs <;> simp_all
  | some sa =>
    cases he : tm.endAmPm with
    | none =>
      split_ifs <;> simp_all
    | some ea =>
      split_ifs <;> simp_all

/-- The converted hours stay at most 23 when the raw hours are. -/
theorem convertHours_le (tm : TimeMatch) (h1 : tm.startHour ≤ 23)
    (h2 : tm.endHour ≤ 23) :
    (convertHours tm).1 ≤ 23 ∧ (convertHours tm).2 ≤ 23 := by
  rw [convertHours]
  split_ifs <;> constructor <;> simp <;> omega

/-- C8: when the schedule string matches with neither boundary carrying an
AM/PM marker, each boundary hour in 1..7 is bumped by 12 and hours 0 or at
least 8 are kept; when at least one boundary carries a marker, the
heuristic applies to neither boundary and only the explicit-PM conversion
runs. -/
theorem c8_bare_hour_heuristic (s : String) (d : List Char) (tm : TimeMatch)
    (h : scheduleMatch s = some (d, tm)) :
    (tm.startAmPm = none ∧ tm.endAmPm = none →
      parse_schedule s = some ⟨d,
        ((if 1 ≤ tm.startHour ∧ tm.startHour ≤ 7 then tm.startHour + 12
          else tm.startHour) * 60 + tm.startMin : Nat),
        ((if 1 ≤ tm.endHour ∧ tm.endHour ≤ 7 then tm.endHour + 12
          else tm.endHour) * 60 + tm.endMin : Nat)⟩) ∧
    (tm.startAmPm ≠ none ∨ tm.endAmPm ≠ none →
      parse_schedule s = some ⟨d,
        ((if tm.startAmPm = some AmPm.pm ∧ tm.startHour < 12 then tm.startHour + 12
          else tm.startHour) * 60 + tm.startMin : Nat),
        ((if tm.endAmPm = some AmPm.pm ∧ tm.endHour < 12 then tm.endHour + 12
          else tm.endHour) * 60 + tm.endMin : Nat)⟩) := by
  constructor
  · rintro ⟨h1, h2⟩
    rw [parse_schedule, h]
    show some (mkParsed d tm) = _
    rw [mkParsed, convertHours_no_marker tm h1 h2]
  · intro hm
    rw [parse_schedule, h]
    show some (mkParsed d tm) = _
    rw [mkParsed, convertHours_marker tm hm]

theorem c8_witness :
    parse_schedule "MWF 1:00 - 2:30" = some ⟨['M', 'W', 'F'], 780, 870⟩ ∧
    parse_schedule "MWF 1:00 - 2:30 PM" = some ⟨['M', 'W', 'F'], 60, 870⟩ :=
  ⟨(c8_bare_hour_heuristic "MWF 1:00 - 2:30" ['M', 'W', 'F']
      ⟨1, 0, none, 2, 30, none⟩ (by decide)).1 ⟨rfl, rfl⟩,
   (c8_bare_hour_heuristic "MWF 1:00 - 2:30 PM" ['M', 'W', 'F']
      ⟨1, 0, none, 2, 30, some AmPm.pm⟩ (by decide)).2
     (Or.inr (by decide))⟩

/-- C7 counterexample: the regex accepts any one- or two-digit hour, so
`"M 10:00 - 25:00"` parses with an end of 1500 minutes, outside the claimed
range `[0, 1440]`. -/
theorem c7_counterexample :
    parse_schedule "M 10:00 - 25:00" = some ⟨['M'], 600, 1500⟩ ∧
    ¬((1500 : Int) ≤ 1440) := by
  constructor
  · decide
  · decide

/-- C7 amended: whenever the matched hour fields are at most 23 and the
minute fields at most 59, the parsed start and end lie in `[0, 1440]`;
larger raw digit values (which the regex accepts) can exceed the range. -/
theorem c7_amended_bounds (s : String) (d : List Char) (tm : TimeMatch)
    (r : ParsedInterval) (h : scheduleMatch s = some (d, tm))
    (hsh : tm.startHour ≤ 23) (hsm : tm.startMin ≤ 59)
    (heh : tm.endHour ≤ 23) (hem : tm.endMin ≤ 59)
    (hr : parse_schedule s = some r) :
    0 ≤ r.start ∧ r.start ≤ 1440 ∧ 0 ≤ r.«end» ∧ r.«end» ≤ 1440 := by
  rw [parse_schedule, h] at hr
  obtain rfl : mkParsed d tm = r := by
    have : some (mkParsed d tm) = some r := hr
    exact Option.some_inj.mp this
  obtain ⟨hc1, hc2⟩ := convertHours_le tm hsh heh
  rw [mkParsed]
  show 0 ≤ (((convertHours tm).1 * 60 + tm.startMin : Nat) : Int) ∧
    (((convertHours tm).1 * 60 + tm.startMin : Nat) : Int) ≤ 1440 ∧
    0 ≤ (((convertHours tm).2 * 60 + tm.endMin : Nat) : Int) ∧
    (((convertHours tm).2 * 60 + tm.endMin : Nat) : Int) ≤ 1440
  have hs1 : (convertHours tm).1 * 60 + tm.startMin ≤ 1440 := by omega
  have hs2 : (convertHours tm).2 * 60 + tm.endMin ≤ 1440 := by omega
  exact ⟨by positivity, by exact_mod_cast hs1, by positivity, by exact_mod_cast hs2⟩

theorem c7_witness :
    0 ≤ (600 : Int) ∧ (600 : Int) ≤ 1440 ∧ 0 ≤ (690 : Int) ∧ (690 : Int) ≤ 1440 := by
  have h := c7_amended_bounds "MWF 10:00 - 11:30" ['M', 'W', 'F']
    ⟨10, 0, none, 11, 30, none⟩ ⟨['M', 'W', 'F'], 600, 690⟩
    (by decide) (by decide) (by decide) (by decide) (by decide) (by decide)
  exact h

theorem digitChar_isDigit (d : Nat) (h : d ≤ 9) : (digitChar d).isDigit = true := by
  interval_cases d <;> decide

theorem digitVal_digitChar (d : Nat) (h : d ≤ 9) : digitVal (digitChar d) = d := by
  interval_cases d <;> decide

theorem digitChar_not_space (d : Nat) : pyIsSpace (digitChar d) = false := by
  rw [digitChar]
  split_ifs <;> decide

theorem hour12_bounds (h : Nat) : 1 ≤ hour12 h ∧ hour12 h ≤ 12 := by
  rw [hour12]
  split_ifs <;> omega

theorem fmt12_length (m : Nat) : 7 ≤ (fmt12 m).length := by
  rw [fmt12, fmtHour12]
  split_ifs <;> simp [pad2]

theorem fmtHour12_head (h : Nat) :
    ∃ c r, fmtHour12 h = c :: r ∧ pyIsSpace c = false := by
  rw [fmtHour12]
  by_cases h10 : 10 ≤ h
  · rw [if_pos h10, pad2]
    exact ⟨digitChar (h / 10), [digitChar (h % 10)], rfl, digitChar_not_space _⟩
  · rw [if_neg h10]
    exact ⟨digitChar h, [], rfl, digitChar_not_space _⟩

theorem dropWhile_fmt12_append (m : Nat) (X : List Char) :
    (fmt12 m ++ X).dropWhile pyIsSpace = fmt12 m ++ X := by
  obtain ⟨c, r, hcr, hns⟩ := fmtHour12_head (hour12 (m / 60))
  rw [fmt12, hcr]
  simp [List.dropWhile_cons, hns]

theorem hm2_colon_second (a : Char) (l : List Char) : hm2 (a :: ':' :: l) = none := by
  match l with
  | [] => rfl
  | [c] => rfl
  | [c, d] => rfl
  | c :: d :: e :: r =>
    rw [hm2]
    rw [if_neg]
    rintro ⟨-, hb, -⟩
    exact absurd hb (by decide)

theorem parseHM_fmt (h mm : Nat) (rest : List Char) (hb1 : 1 ≤ h) (hb2 : h ≤ 12)
    (hmm : mm ≤ 59) :
    parseHM (fmtHour12 h ++ ':' :: (pad2 mm ++ rest)) = some (h, mm, rest) := by
  have hq : h / 10 ≤ 9 := by omega
  have hr : h % 10 ≤ 9 := by omega
  have hmq : mm / 10 ≤ 9 := by omega
  have hmr : mm % 10 ≤ 9 := by omega
  rw [fmtHour12]
  by_cases h10 : 10 ≤ h
  · rw [if_pos h10, pad2, pad2]
    show parseHM (digitChar (h / 10) :: digitChar (h % 10) :: ':' ::
      digitChar (mm / 10) :: digitChar (mm % 10) :: rest) = some (h, mm, rest)
    rw [parseHM, hm2, if_pos]
    · rw [digitVal_digitChar _ hq, digitVal_digitChar _ hr,
        digitVal_digitChar _ hmq, digitVal_digitChar _ hmr]
      have e1 : h / 10 * 10 + h % 10 = h := by omega
      have e2 : mm / 10 * 10 + mm % 10 = mm := by omega
      rw [e1, e2]
    · exact ⟨digitChar_isDigit _ hq, digitChar_isDigit _ hr, rfl,
        digitChar_isDigit _ hmq, digitChar_isDigit _ hmr⟩
  · rw [if_neg h10, pad2]
    show parseHM (digitChar h :: ':' ::
      (digitChar (mm / 10) :: digitChar (mm % 10) :: rest)) = some (h, mm, rest)
    rw [parseHM, hm2_colon_second]
    rw [hm1, if_pos]
    · rw [digitVal_digitChar _ (by omega), digitVal_digitChar _ hmq,
        digitVal_digitChar _ hmr]
      have e2 : mm / 10 * 10 + mm % 10 = mm := by omega
      rw [e2]
    · exact ⟨digitChar_isDigit _ (by omega), rfl, digitChar_isDigit _ hmq,
        digitChar_isDigit _ hmr⟩

theorem pyStrip_sandwich (a b : Char) (l : List Char) (ha : pyIsSpace a = false)
    (hb : pyIsSpace b = false) :
    pyStrip (a :: (l ++ [b])) = a :: (l ++ [b]) := by
  rw [pyStrip]
  simp [List.dropWhile_cons, ha, hb]

theorem takeWhile_append_stop (p : Char → Bool) :
    ∀ (l : List Char) (x : Char) (r : List Char),
      (∀ c ∈ l, p c = true) → p x = false →
      (l ++ x :: r).takeWhile p = l ∧ (l ++ x :: r).dropWhile p = x :: r := by
  intro l
  induction l with
  | nil =>
    intro x r _ hx
    constructor <;> simp [List.takeWhile_cons, List.dropWhile_cons, hx]
  | cons a l ih =>
    intro x r hl hx
    have ha := hl a (List.mem_cons_self a l)
    obtain ⟨h1, h2⟩ := ih x r (fun c hc => hl c (List.mem_cons_of_mem a hc)) hx
    constructor <;> simp [List.takeWhile_cons, List.dropWhile_cons, ha, h1, h2]

theorem map_toUpper_codes (l : List Char)
    (h : ∀ c ∈ l, c ∈ ['M', 'T', 'W', 'R', 'F', 'S', 'U']) :
    l.map Char.toUpper = l := by
  induction l with
  | nil => rfl
  | cons a l ih =>
    have ha : a.toUpper = a := by
      have := h a (List.mem_cons_self a l)
      fin_cases this <;> decide
    rw [List.map_cons, ha, ih (fun c hc => h c (List.mem_cons_of_mem a hc))]

theorem pyReplaceTH_no_H : ∀ l : List Char, 'H' ∉ l → pyReplaceTH l = l := by
  intro l
  induction l with
  | nil => intro _; rfl
  | cons a l ih =>
    intro h
    cases l with
    | nil => rfl
    | cons b l2 =>
      rw [pyReplaceTH, if_neg]
      · rw [ih (fun hb => h (List.mem_cons_of_mem a hb))]
      · rintro ⟨-, rfl⟩
        exact h (List.mem_cons_of_mem a (List.mem_cons_self _ _))

theorem filter_codes_ne_H (l : List Char)
    (h : ∀ c ∈ l, c ∈ ['M', 'T', 'W', 'R', 'F', 'S', 'U']) :
    l.filter (fun c => !(c = 'H')) = l := by
  rw [List.filter_eq_self]
  intro c hc
  have := h c hc
  fin_cases this <;> decide

theorem parseTimePart_fmt (s e : Nat) :
    parseTimePart (fmt12 s ++ ' ' :: '-' :: ' ' :: fmt12 e) =
      some ⟨hour12 (s / 60), s % 60,
            some (if s / 60 < 12 then AmPm.am else AmPm.pm),
            hour12 (e / 60), e % 60,
            some (if e / 60 < 12 then AmPm.am else AmPm.pm)⟩ := by
  have hb1 := (hour12_bounds (s / 60)).1
  have hb2 := (hour12_bounds (s / 60)).2
  have hc1 := (hour12_bounds (e / 60)).1
  have hc2 := (hour12_bounds (e / 60)).2
  have hshape : fmt12 s ++ ' ' :: '-' :: ' ' :: fmt12 e =
      fmtHour12 (hour12 (s / 60)) ++ ':' :: (pad2 (s % 60) ++
        (' ' :: (if s / 60 < 12 then 'A' else 'P') :: 'M' ::
          (' ' :: '-' :: ' ' :: fmt12 e))) := by
    simp [fmt12, List.append_assoc]
  have hp1 := parseHM_fmt (hour12 (s / 60)) (s % 60)
      (' ' :: (if s / 60 < 12 then 'A' else 'P') :: 'M' ::
        (' ' :: '-' :: ' ' :: fmt12 e)) hb1 hb2 (by omega)
  have hns : pyIsSpace (if s / 60 < 12 then 'A' else 'P') = false := by
    split_ifs <;> decide
  have hdw1 : (' ' :: (if s / 60 < 12 then 'A' else 'P') :: 'M' ::
      (' ' :: '-' :: ' ' :: fmt12 e)).dropWhile pyIsSpace =
      (if s / 60 < 12 then 'A' else 'P') :: 'M' :: (' ' :: '-' :: ' ' :: fmt12 e) := by
    simp [List.dropWhile_cons, hns, (by decide : pyIsSpace ' ' = true)]
  have hap : parseAmPmOpt ((if s / 60 < 12 then 'A' else 'P') :: 'M' ::
      (' ' :: '-' :: ' ' :: fmt12 e)) =
      (some (if s / 60 < 12 then AmPm.am else AmPm.pm),
        ' ' :: '-' :: ' ' :: fmt12 e) := by
    split_ifs <;> rfl
  rw [parseTimePart, hshape]
  have hfme : (fmt12 e).dropWhile pyIsSpace = fmt12 e := by
    have := dropWhile_fmt12_append e []
    simpa using this
  have hdw2 : (' ' :: '-' :: ' ' :: fmt12 e).dropWhile pyIsSpace =
      '-' :: ' ' :: fmt12 e := by
    simp [List.dropWhile_cons, (by decide : pyIsSpace ' ' = true),
      (by decide : pyIsSpace '-' = false)]
  have hdw3 : (' ' :: fmt12 e).dropWhile pyIsSpace = fmt12 e := by
    simp [List.dropWhile_cons, (by decide : pyIsSpace ' ' = true), hfme]
  have hshape2 : fmt12 e = fmtHour12 (hour12 (e / 60)) ++ ':' :: (pad2 (e % 60) ++
      [' ', (if e / 60 < 12 then 'A' else 'P'), 'M']) := by
    simp [fmt12, List.append_assoc]
  have hp2 := parseHM_fmt (hour12 (e / 60)) (e % 60)
      [' ', (if e / 60 < 12 then 'A' else 'P'), 'M'] hc1 hc2 (by omega)
  have hnse : pyIsSpace (if e / 60 < 12 then 'A' else 'P') = false := by
    split_ifs <;> decide
  have hdw4 : ([' ', (if e / 60 < 12 then 'A' else 'P'), 'M']).dropWhile pyIsSpace =
      [(if e / 60 < 12 then 'A' else 'P'), 'M'] := by
    simp [List.dropWhile_cons, (by decide : pyIsSpace ' ' = true), hnse]
  have hape : parseAmPmOpt [(if e / 60 < 12 then 'A' else 'P'), 'M'] =
      (some (if e / 60 < 12 then AmPm.am else AmPm.pm), []) := by
    split_ifs <;> rfl
  simp only [hp1, hdw1, hap, hdw2, hdw3]
  rw [hshape2]
  simp only [hp2, hdw4, hape]

theorem scheduleMatch_construct (days : List Char) (s e : Nat)
    (hne : days ≠ [])
    (hcodes : ∀ c ∈ days, c ∈ ['M', 'T', 'W', 'R', 'F', 'S', 'U']) :
    scheduleMatch (constructSched days s e) =
      some (days,
        ⟨hour12 (s / 60), s % 60,
         some (if s / 60 < 12 then AmPm.am else AmPm.pm),
         hour12 (e / 60), e % 60,
         some (if e / 60 < 12 then AmPm.am else AmPm.pm)⟩) := by
  obtain ⟨d0, dtl, rfl⟩ : ∃ d0 dtl, days = d0 :: dtl := by
    cases days with
    | nil => exact absurd rfl hne
    | cons a l => exact ⟨a, l, rfl⟩
  have hdata : (constructSched (d0 :: dtl) s e).data =
      d0 :: (dtl ++ ' ' :: (fmt12 s ++ ' ' :: '-' :: ' ' :: fmt12 e)) := rfl
  have hday : ∀ c ∈ d0 :: dtl, isDayChar c = true := by
    intro c hc
    have := hcodes c hc
    fin_cases this <;> decide
  have hd0ns : pyIsSpace d0 = false := by
    have := hcodes d0 (List.mem_cons_self d0 dtl)
    fin_cases this <;> decide
  have hnotTBA : ((constructSched (d0 :: dtl) s e).data = [] ∨
      (constructSched (d0 :: dtl) s e).data.map Char.toUpper = "TBA".data) → False := by
    rintro (habs | habs)
    · rw [hdata] at habs
      exact absurd habs (by simp)
    · have hlen := congrArg List.length habs
      rw [List.length_map, hdata] at hlen
      have h7 := fmt12_length s
      have h7e := fmt12_length e
      simp [List.length_append] at hlen
      omega
  have hstrip : pyStrip (d0 :: (dtl ++ ' ' :: (fmt12 s ++ ' ' :: '-' :: ' ' :: fmt12 e))) =
      d0 :: (dtl ++ ' ' :: (fmt12 s ++ ' ' :: '-' :: ' ' :: fmt12 e)) := by
    obtain ⟨mid, hmid⟩ : ∃ mid,
        d0 :: (dtl ++ ' ' :: (fmt12 s ++ ' ' :: '-' :: ' ' :: fmt12 e)) =
        d0 :: (mid ++ ['M']) :=
      ⟨dtl ++ ' ' :: (fmt12 s ++ ' ' :: '-' :: ' ' ::
          (fmtHour12 (hour12 (e / 60)) ++ ':' :: pad2 (e % 60) ++
            [' ', if e / 60 < 12 then 'A' else 'P'])),
        by simp [fmt12, List.append_assoc]⟩
    rw [hmid]
    exact pyStrip_sandwich d0 'M' _ hd0ns (by decide)
  obtain ⟨htake, hdrop⟩ := takeWhile_append_stop isDayChar (d0 :: dtl) ' '
    (fmt12 s ++ ' ' :: '-' :: ' ' :: fmt12 e) hday (by decide)
  have hmp1 : matchPattern1 (d0 :: (dtl ++ ' ' ::
      (fmt12 s ++ ' ' :: '-' :: ' ' :: fmt12 e))) =
      some (d0 :: dtl,
        ⟨hour12 (s / 60), s % 60,
         some (if s / 60 < 12 then AmPm.am else AmPm.pm),
         hour12 (e / 60), e % 60,
         some (if e / 60 < 12 then AmPm.am else AmPm.pm)⟩) := by
    show matchPattern1 ((d0 :: dtl) ++ ' ' ::
      (fmt12 s ++ ' ' :: '-' :: ' ' :: fmt12 e)) = _
    simp only [matchPattern1, htake, hdrop]
    simp [(show (' ' = 'h' ∨ ' ' = 'H') → False by decide),
      (show pyIsSpace ' ' = true by decide),
      dropWhile_fmt12_append, parseTimePart_fmt]
  have hH : 'H' ∉ (d0 :: dtl) := fun hmem => absurd (hcodes 'H' hmem) (by decide)
  rw [scheduleMatch, if_neg hnotTBA]
  show (match matchPattern1 (pyStrip ((constructSched (d0 :: dtl) s e).data)) with
    | some (g1, tm) =>
      some ((pyReplaceTH (g1.map Char.toUpper)).filter (fun c => !(c = 'H')), tm)
    | none =>
      match matchPattern2 (pyStrip ((constructSched (d0 :: dtl) s e).data)) with
      | some (code, tm) => some ([code], tm)
      | none => none) = _
  rw [hdata, hstrip]
  simp only [hmp1]
  simp [map_toUpper_codes (d0 :: dtl) hcodes,
    pyReplaceTH_no_H (d0 :: dtl) hH, filter_codes_ne_H (d0 :: dtl) hcodes]

theorem hour_recover (m : Nat) (h1 : 60 ≤ m) (h2 : m < 1440) :
    (if some (if m / 60 < 12 then AmPm.am else AmPm.pm) = some AmPm.pm ∧
        hour12 (m / 60) < 12
      then hour12 (m / 60) + 12 else hour12 (m / 60)) * 60 + m % 60 = m := by
  simp only [hour12]
  split_ifs <;> simp_all <;> omega

/-- C6 amended: the AM/PM round-trip holds for every constructed schedule
string whose boundaries both lie at hour-of-day 1 or later; midnight
boundaries (12:xx AM) are not mapped back to hour 0 by the code. -/
theorem c6_amended_roundtrip (days : List Char) (s e : Nat)
    (hne : days ≠ [])
    (hcodes : ∀ c ∈ days, c ∈ ['M', 'T', 'W', 'R', 'F', 'S', 'U'])
    (hs1 : 60 ≤ s) (hs2 : s < 1440) (he1 : 60 ≤ e) (he2 : e < 1440) :
    parse_schedule (constructSched days s e) = some ⟨days, (s : Int), (e : Int)⟩ := by
  rw [parse_schedule, scheduleMatch_construct days s e hne hcodes]
  show some (mkParsed days
    ⟨hour12 (s / 60), s % 60, some (if s / 60 < 12 then AmPm.am else AmPm.pm),
     hour12 (e / 60), e % 60, some (if e / 60 < 12 then AmPm.am else AmPm.pm)⟩) = _
  rw [mkParsed, convertHours_marker _ (Or.inl (by simp))]
  simp only
  rw [hour_recover s hs1 hs2, hour_recover e he1 he2]

theorem c6_witness :
    parse_schedule (constructSched ['M', 'W'] 600 810) =
      some ⟨['M', 'W'], 600, 810⟩ :=
  c6_amended_roundtrip ['M', 'W'] 600 810 (by decide) (by decide) (by decide)
    (by decide) (by decide) (by decide)

/-- C6 counterexample: the constructed string for a midnight interval
(0 and 30 minutes, rendered `12:00 AM` and `12:30 AM`) is parsed back as
720 and 750 minutes: the code has no `AM` 12-to-0 conversion, so the exact
constructing values are not recovered. -/
theorem c6_counterexample :
    constructSched ['M'] 0 30 = "M 12:00 AM - 12:30 AM" ∧
    parse_schedule "M 12:00 AM - 12:30 AM" = some ⟨['M'], 720, 750⟩ ∧
    (some (⟨['M'], 720, 750⟩ : ParsedInterval) ≠
      some (⟨['M'], 0, 30⟩ : ParsedInterval)) := by
  refine ⟨by decide, by decide, by decide⟩
